import Mathlib

/-!
Verification of the batch URL-to-Markdown conversion runner
(src/html_converter.py).

The development shallowly embeds the pure logic of the script:

* `sanitize_filename`, `get_page_title` — filename derivation (lines 14-24);
* `get_primary_domain` — the domain grouper (lines 102-105);
* `netloc` — the host extraction performed by `urllib.parse.urlparse(u).netloc`;
* `process_url`, `runItem`, `runBatch` — the per-item runner and the batch
  orchestrator of `main` (lines 75-99 and 150-198), with the external
  converter/writer collaboration and the wall clock abstracted into a
  per-item behaviour oracle;
* a small wall-clock model of the `ProcessPoolExecutor` lifecycle used at
  lines 159-172 (`future.result(timeout=60)` followed by the implicit
  `shutdown(wait=True)` of the `with` block).

Theorems at the end of the file settle the specification claims against
these definitions.
-/

namespace HtmlConverter

open scoped List

/-- Characters kept by the sanitizer: the regex class `[a-zA-Z0-9\-_\.]`
of src/html_converter.py line 15 (`Char.isAlpha`/`Char.isDigit` are the
ASCII ranges, matching the literal ranges in the regex). -/
def isSafeChar (c : Char) : Bool :=
  c.isAlpha || c.isDigit || c = '-' || c = '_' || c = '.'

/-- Embeds `sanitize_filename` (lines 14-15): `re.sub` with a single-character
class replaces each character outside the class by an underscore. -/
def sanitize_filename (name : String) : String :=
  String.mk (name.data.map (fun c => if isSafeChar c then c else '_'))

/-- `str.strip(chars)`-style removal of characters satisfying `p` from both
ends of a character list. -/
def stripChars (p : Char → Bool) (s : List Char) : List Char :=
  ((s.dropWhile p).reverse.dropWhile p).reverse

/-- Embeds `str.splitlines` for the terminators `\n`, `\r` and `\r\n`
(the terminators that occur in text handled by the script; Python also
splits on rarer Unicode boundaries). -/
def splitlinesAux : List Char → List Char → List (List Char)
  | [], acc => if acc.isEmpty then [] else [acc.reverse]
  | '\r' :: '\n' :: rest, acc => acc.reverse :: splitlinesAux rest []
  | '\r' :: rest, acc => acc.reverse :: splitlinesAux rest []
  | '\n' :: rest, acc => acc.reverse :: splitlinesAux rest []
  | c :: rest, acc => splitlinesAux rest (c :: acc)

def splitlines (s : String) : List (List Char) := splitlinesAux s.data []

/-- The loop body of `get_page_title` (lines 19-24): scan the lines; on the
first line that starts with `#` and whose `.strip('#').strip()` is non-empty,
return the sanitized title; otherwise fall through to `"index"`.
(`Char.isWhitespace` covers the whitespace characters stripped by `str.strip()`
that can appear inside a line.) -/
def get_page_title_go : List (List Char) → String
  | [] => "index"
  | line :: rest =>
    if line.head? = some '#' then
      if (stripChars Char.isWhitespace (stripChars (fun c => c = '#') line)).isEmpty then
        get_page_title_go rest
      else
        sanitize_filename
          (String.mk (stripChars Char.isWhitespace (stripChars (fun c => c = '#') line)))
    else get_page_title_go rest

/-- Embeds `get_page_title` (lines 18-24). -/
def get_page_title (markdown : String) : String :=
  get_page_title_go (splitlines markdown)

/-- The Markdown filename chosen by `save_files` (line 47): `f"{page_title}.md"`
where `page_title = get_page_title(md_content)` (line 45). -/
def md_filename (mdContent : String) : String := get_page_title mdContent ++ ".md"

/-- The JSON filename chosen by `save_files` (line 68): `f"{page_title}.json"`. -/
def json_filename (mdContent : String) : String := get_page_title mdContent ++ ".json"

/-- Embeds `domain.endswith(suffix)`: the characters of `suffix` are a suffix
of the characters of `domain`. -/
def endswith (domain suffix : String) : Bool :=
  suffix.data.isSuffixOf domain.data

/-- Embeds `get_primary_domain` (lines 102-105): hosts ending with
`"asimov.academy"` collapse to that root domain, all others pass through. -/
def get_primary_domain (domain : String) : String :=
  if endswith domain "asimov.academy" then "asimov.academy" else domain

/-- Characters `urllib.parse` accepts inside a URL scheme
(letters, digits, `+`, `-`, `.`). -/
def isSchemeChar (c : Char) : Bool :=
  c.isAlphanum || c = '+' || c = '-' || c = '.'

/-- The scheme-splitting step of `urllib.parse.urlsplit`: when the text before
the first `:` is a non-empty run of scheme characters starting with a letter,
the scheme and the colon are removed; otherwise the URL is left intact. -/
def dropScheme (cs : List Char) : List Char :=
  let pre := cs.takeWhile (fun c => c ≠ ':')
  match cs.drop pre.length, pre with
  | ':' :: rest, c0 :: pre' =>
      if c0.isAlpha && (c0 :: pre').all isSchemeChar then rest else cs
  | _, _ => cs

/-- Embeds `urllib.parse.urlparse(url).netloc` as used at lines 39-40, 91,
151 and 165: after removing a scheme prefix, the netloc is the text between
a leading `//` and the next `/`, `?` or `#`; a URL with no `//` has an empty
netloc. -/
def netloc (url : String) : String :=
  match dropScheme url.data with
  | '/' :: '/' :: t =>
      String.mk (t.takeWhile (fun c => c ≠ '/' && c ≠ '?' && c ≠ '#'))
  | _ => ""

/-- Embeds `round(x, 2)` applied to the measured wall time (line 89):
rounding to two decimal places.  (Python rounds ties to even on floats;
tie behaviour is irrelevant to every claim.) -/
def round2 (q : ℚ) : ℚ := (round (q * 100) : ℤ) / 100

/-- Embeds `format_time` (lines 27-35).  The `%.2f` decimal rendering of a
Python float is abstracted as `toString` of the rational value; the branch
structure (seconds / minutes / hours with thresholds 60 and 3600) follows
the source. -/
def format_time (seconds : ℚ) : String :=
  if seconds < 60 then toString seconds ++ " seconds"
  else if seconds < 3600 then toString (seconds / 60) ++ " minutes"
  else toString (seconds / 3600) ++ " hours"

/-- The per-URL result record built at lines 93-99, 166-172 and 176-182. -/
structure Outcome where
  url : String
  status : String
  processing_time : Option ℚ
  processing_time_formatted : String
  error_message : Option String
deriving Repr, DecidableEq

/-- Oracle describing how the isolated execution of one work item behaves:
the conversion plus artifact writing completes within the deadline (with
`Except.ok`, or `Except.error m` where `m` is the stringified exception caught
at line 84, and with the wall time measured by `process_url`), or the worker
is still running when the deadline expires (the `TimeoutError` branch, line
163), or the future fails with some other exception (line 173). -/
inductive ItemBehavior where
  | completes (conv : Except String Unit) (elapsed : ℚ)
  | timesOut
  | crashes (msg : String)

/-- Embeds `process_url` (lines 75-99) for a run that completes: status and
error message from the try/except, measured time rounded and formatted, and
the `(domain, record)` pair returned at lines 93-99, where `domain` is the
netloc of the url (line 91). -/
def process_url (url : String) (conv : Except String Unit) (elapsed : ℚ) :
    String × Outcome :=
  let pt := round2 elapsed
  let formatted := format_time pt
  match conv with
  | Except.ok _ =>
      (netloc url,
        { url := url, status := "success", processing_time := some pt,
          processing_time_formatted := formatted, error_message := none })
  | Except.error m =>
      (netloc url,
        { url := url, status := "error", processing_time := some pt,
          processing_time_formatted := formatted, error_message := some m })

/-- One iteration of the per-item try/except (lines 159-182): the pair
returned by `process_url` when the worker completes in time, the
`TimeoutError` branch (lines 163-172), or the generic exception branch
(lines 173-182); in the two except branches the domain is recomputed as
`urlparse(url).netloc` (lines 165, 175). -/
def runItem (behav : String → ItemBehavior) (url : String) : String × Outcome :=
  match behav url with
  | ItemBehavior.completes conv elapsed => process_url url conv elapsed
  | ItemBehavior.timesOut =>
      (netloc url,
        { url := url, status := "error", processing_time := none,
          processing_time_formatted := "Timeout after 1 minute",
          error_message := some "Timeout after 1 minute" })
  | ItemBehavior.crashes msg =>
      (netloc url,
        { url := url, status := "error", processing_time := none,
          processing_time_formatted := "Error occurred",
          error_message := some msg })

/-- Embeds the accumulation step at lines 183-187: append the record to the
existing group for the key, or add a new `(key, [record])` entry at the end
(a Python dict keeps keys unique, updates in place and preserves insertion
order). -/
def addOutcome : List (String × List Outcome) → String → Outcome →
    List (String × List Outcome)
  | [], key, o => [(key, [o])]
  | (k, os) :: rest, key, o =>
      if k = key then (k, os ++ [o]) :: rest
      else (k, os) :: addOutcome rest key o

/-- Python string comparison, as used by `sorted` at lines 151 and 193-194:
strict lexicographic order on the character sequences. -/
def pyStrLt (a b : String) : Prop := a.data < b.data

/-- Non-strict Python string comparison. -/
def pyStrLe (a b : String) : Prop := a.data ≤ b.data

instance : DecidableRel pyStrLt := fun a b =>
  inferInstanceAs (Decidable (a.data < b.data))

instance : DecidableRel pyStrLe := fun a b =>
  inferInstanceAs (Decidable (a.data ≤ b.data))

/-- The sort key of line 151: the pair
`(get_primary_domain(urlparse(u).netloc), u)`. -/
def urlKey (u : String) : String × String := (get_primary_domain (netloc u), u)

/-- Ascending order on the sort key of line 151, compared lexicographically
as Python compares tuples. -/
def urlKeyLe (u v : String) : Prop :=
  pyStrLt (urlKey u).1 (urlKey v).1 ∨
    ((urlKey u).1 = (urlKey v).1 ∧ pyStrLe (urlKey u).2 (urlKey v).2)

instance : DecidableRel urlKeyLe := fun u v =>
  inferInstanceAs (Decidable (pyStrLt (urlKey u).1 (urlKey v).1 ∨
    ((urlKey u).1 = (urlKey v).1 ∧ pyStrLe (urlKey u).2 (urlKey v).2)))

/-- Embeds line 151:
`urls = sorted(urls, key=lambda u: (get_primary_domain(urlparse(u).netloc), u))`.
Python's `sorted` is stable; insertion sort is stable and computes the same
result for this total key order. -/
def sortedUrls (urls : List String) : List String :=
  List.insertionSort urlKeyLe urls

/-- The body of the loop over urls (lines 157-187): run the item, then file
its record under the primary domain of the returned netloc (line 183). -/
def stepItem (behav : String → ItemBehavior) (acc : List (String × List Outcome))
    (url : String) : List (String × List Outcome) :=
  addOutcome acc (get_primary_domain (runItem behav url).1) (runItem behav url).2

/-- The `processed_data` dict after the loop of lines 156-187, as an
insertion-ordered association list. -/
def runBatchAcc (behav : String → ItemBehavior) (urls : List String) :
    List (String × List Outcome) :=
  (sortedUrls urls).foldl (stepItem behav) []

/-- Dictionary lookup `processed_data[primary]` (line 194) for a key known to
be present; absent keys (which never occur at line 194) yield `[]`. -/
def lookupList : List (String × List Outcome) → String → List Outcome
  | [], _ => []
  | (k, os) :: rest, key => if k = key then os else lookupList rest key

/-- The within-group sort order of line 194: ascending by the url field. -/
def outcomeLe (a b : Outcome) : Prop := pyStrLe a.url b.url

instance : DecidableRel outcomeLe := fun a b =>
  inferInstanceAs (Decidable (pyStrLe a.url b.url))

/-- One entry of the webhook payload (lines 195-198). -/
structure DomainGroup where
  domain : String
  urls : List Outcome
deriving Repr, DecidableEq

/-- Embeds lines 192-198: iterate the accumulated keys in sorted order
(`sorted(processed_data.keys())`) and sort each group's records by url. -/
def buildReport (acc : List (String × List Outcome)) : List DomainGroup :=
  (List.insertionSort pyStrLe (acc.map Prod.fst)).map
    (fun k => { domain := k, urls := List.insertionSort outcomeLe (lookupList acc k) })

/-- Embeds the batch run of `main` (lines 150-198): sort the urls by
`(primary domain, url)`, process each item sequentially, accumulate records
by primary domain, and build the sorted report. -/
def runBatch (behav : String → ItemBehavior) (urls : List String) :
    List DomainGroup :=
  buildReport (runBatchAcc behav urls)

/-- All records in the accumulated dict, in group order. -/
def vals (acc : List (String × List Outcome)) : List Outcome :=
  (acc.map Prod.snd).flatten

/-- The fixed deadline of line 162 (`future.result(timeout=60)`): 60 seconds,
uniform for every item. -/
def deadline : ℚ := 60

/-- Result of the bounded wait `future.result(timeout=60)` (line 162) as a
function of the duration `d` of the submitted task, where `none` means the
task never finishes: the value is available at time `t` when `t ≤ deadline`,
otherwise the call raises `TimeoutError` when the deadline expires. -/
inductive FutureWait where
  | completed (t : ℚ)
  | timedOut
deriving DecidableEq, Repr

def futureResult (d : Option ℚ) : FutureWait :=
  match d with
  | some t => if t ≤ deadline then FutureWait.completed t else FutureWait.timedOut
  | none => FutureWait.timedOut

/-- Leaving the `with` block of line 159 calls
`ProcessPoolExecutor.shutdown(wait=True)`, whose documented behaviour is to
block until the worker has finished executing its running task; it does not
terminate the worker.  The wait therefore ends exactly when the task itself
ends, and never ends for a task that never finishes. -/
def shutdownWaitUntil (d : Option ℚ) : Option ℚ := d

/-- Wall-clock time at which one iteration of the loop of lines 159-182
returns control to the orchestrator, as a function of the task duration:
on completion within the deadline, the completion time; on a timeout, the
`with`-block exit still waits for the worker via `shutdown(wait=True)`.
`none` means the iteration never returns. -/
def perItemReturnTime (d : Option ℚ) : Option ℚ :=
  match futureResult d with
  | FutureWait.completed t => some t
  | FutureWait.timedOut => shutdownWaitUntil d

/-- Whether the isolated worker is still executing the item's task at time
`t`: nothing in lines 159-182 terminates the worker, so it stays busy until
the task's own duration has elapsed. -/
def workerBusyAt (d : Option ℚ) (t : ℚ) : Bool :=
  match d with
  | none => true
  | some dur => decide (t < dur)

/-- All records in the report, in group order. -/
def reportVals (rep : List DomainGroup) : List Outcome :=
  (rep.map DomainGroup.urls).flatten

/-- The per-run invariant of the accumulated dict: groups are non-empty and
keyed by the primary domain of their members' urls. -/
def goodAcc (acc : List (String × List Outcome)) : Prop :=
  ∀ p ∈ acc, p.2 ≠ [] ∧ ∀ o ∈ p.2, get_primary_domain (netloc o.url) = p.1

/-! ### Order facts about the comparison relations -/

lemma strData_inj {a b : String} (h : a.data = b.data) : a = b := by
  cases a; cases b; exact congrArg String.mk h

instance : IsTrans String pyStrLe :=
  ⟨fun _ _ _ h₁ h₂ => le_trans (α := List Char) h₁ h₂⟩

instance : IsTotal String pyStrLe :=
  ⟨fun a b => le_total a.data b.data⟩

instance : IsTrans Outcome outcomeLe :=
  ⟨fun _ _ _ h₁ h₂ => le_trans (α := List Char) h₁ h₂⟩

instance : IsTotal Outcome outcomeLe :=
  ⟨fun a b => le_total a.url.data b.url.data⟩

instance : IsTrans String urlKeyLe := by
  constructor
  intro a b c h₁ h₂
  rcases h₁ with h₁ | ⟨e₁, l₁⟩ <;> rcases h₂ with h₂ | ⟨e₂, l₂⟩
  · exact Or.inl (lt_trans (α := List Char) h₁ h₂)
  · exact Or.inl (e₂ ▸ h₁)
  · exact Or.inl (e₁ ▸ h₂)
  · exact Or.inr ⟨e₁.trans e₂, le_trans (α := List Char) l₁ l₂⟩

instance : IsTotal String urlKeyLe := by
  constructor
  intro a b
  rcases lt_trichotomy (α := List Char) (urlKey a).1.data (urlKey b).1.data with h | h | h
  · exact Or.inl (Or.inl h)
  · have e : (urlKey a).1 = (urlKey b).1 := strData_inj h
    rcases le_total (urlKey a).2.data (urlKey b).2.data with hle | hle
    · exact Or.inl (Or.inr ⟨e, hle⟩)
    · exact Or.inr (Or.inr ⟨e.symm, hle⟩)
  · exact Or.inr (Or.inl h)

/-! ### Sanitizer safety -/

lemma sanitize_all_safe (s : String) :
    (sanitize_filename s).data.all isSafeChar = true := by
  show (s.data.map (fun c => if isSafeChar c then c else '_')).all isSafeChar = true
  rw [List.all_eq_true]
  intro c hc
  rcases List.mem_map.mp hc with ⟨a, _, rfl⟩
  by_cases h : isSafeChar a = true
  · rw [if_pos h]; exact h
  · rw [if_neg h]; decide

lemma get_page_title_go_safe (ls : List (List Char)) :
    (get_page_title_go ls).data.all isSafeChar = true := by
  induction ls with
  | nil => decide
  | cons line rest ih =>
      rw [get_page_title_go]
      split_ifs
      · exact ih
      · exact sanitize_all_safe _
      · exact ih

/-! ### Structure of the accumulated dict -/

lemma vals_cons (k : String) (os : List Outcome) (rest : List (String × List Outcome)) :
    vals ((k, os) :: rest) = os ++ vals rest := rfl

lemma addOutcome_cons (k' : String) (os : List Outcome)
    (rest : List (String × List Outcome)) (k : String) (o : Outcome) :
    addOutcome ((k', os) :: rest) k o =
      if k' = k then (k', os ++ [o]) :: rest
      else (k', os) :: addOutcome rest k o := rfl

lemma lookupList_cons (k' : String) (os : List Outcome)
    (rest : List (String × List Outcome)) (key : String) :
    lookupList ((k', os) :: rest) key =
      if k' = key then os else lookupList rest key := rfl

/-- Adding one record to the dict adds exactly that record to the stored
values, up to order. -/
lemma vals_addOutcome (acc : List (String × List Outcome)) (k : String) (o : Outcome) :
    vals (addOutcome acc k o) ~ vals acc ++ [o] := by
  induction acc with
  | nil => simp [addOutcome, vals]
  | cons p rest ih =>
      obtain ⟨k', os⟩ := p
      rw [addOutcome_cons]
      by_cases hk : k' = k
      · rw [if_pos hk, vals_cons, vals_cons, List.append_assoc, List.append_assoc]
        exact List.Perm.append_left os List.perm_append_comm
      · rw [if_neg hk, vals_cons, vals_cons, List.append_assoc]
        exact List.Perm.append_left os ih

/-- The keys after adding a record: unchanged when the key is present, the
key appended at the end otherwise. -/
lemma keys_addOutcome (acc : List (String × List Outcome)) (k : String) (o : Outcome) :
    (addOutcome acc k o).map Prod.fst =
      if k ∈ acc.map Prod.fst then acc.map Prod.fst
      else acc.map Prod.fst ++ [k] := by
  induction acc with
  | nil => simp [addOutcome]
  | cons p rest ih =>
      obtain ⟨k', os⟩ := p
      rw [addOutcome_cons]
      by_cases hk : k' = k
      · subst hk
        rw [if_pos (by simp)]
        simp
      · rw [if_neg hk]
        simp only [List.map_cons]
        by_cases hm : k ∈ rest.map Prod.fst
        · rw [ih, if_pos hm, if_pos (by simp [hm])]
        · have hnot : k ∉ (k' :: rest.map Prod.fst) := by
            intro hc
            rcases List.mem_cons.mp hc with hc | hc
            · exact hk hc.symm
            · exact hm hc
          rw [ih, if_neg hm, if_neg hnot]
          simp

lemma nodup_keys_addOutcome {acc : List (String × List Outcome)}
    (h : (acc.map Prod.fst).Nodup) (k : String) (o : Outcome) :
    ((addOutcome acc k o).map Prod.fst).Nodup := by
  rw [keys_addOutcome]
  by_cases hm : k ∈ acc.map Prod.fst
  · rw [if_pos hm]; exact h
  · rw [if_neg hm]
    refine List.Nodup.append h (List.nodup_singleton k) ?_
    intro a ha hb
    rw [List.mem_singleton] at hb
    subst hb
    exact hm ha

/-- On a dict with distinct keys, looking every key up and flattening
recovers exactly the stored values. -/
lemma flatten_lookup_keys (acc : List (String × List Outcome))
    (h : (acc.map Prod.fst).Nodup) :
    ((acc.map Prod.fst).map (lookupList acc)).flatten = vals acc := by
  induction acc with
  | nil => rfl
  | cons p rest ih =>
      obtain ⟨k', os⟩ := p
      have h' : (k' :: rest.map Prod.fst).Nodup := h
      rcases List.nodup_cons.mp h' with ⟨hknot, hrest⟩
      simp only [List.map_cons, List.flatten_cons]
      rw [lookupList_cons, if_pos rfl, vals_cons]
      have hmap : (rest.map Prod.fst).map (lookupList ((k', os) :: rest)) =
          (rest.map Prod.fst).map (lookupList rest) := by
        apply List.map_congr_left
        intro a ha
        rw [lookupList_cons, if_neg ?_]
        intro hc
        exact hknot (hc ▸ ha)
      rw [hmap, ih hrest]

/-- Flattening is invariant, up to permutation, under permuting the outer
list. -/
lemma flatten_perm_of_perm {β : Type} :
    ∀ {L₁ L₂ : List (List β)}, L₁ ~ L₂ → L₁.flatten ~ L₂.flatten := by
  intro L₁ L₂ h
  induction h with
  | nil => exact List.Perm.refl _
  | cons x _ ih =>
      simp only [List.flatten_cons]
      exact ih.append_left x
  | swap x y L =>
      simp only [List.flatten_cons]
      rw [← List.append_assoc, ← List.append_assoc]
      exact List.Perm.append_right _ List.perm_append_comm
  | trans _ _ ih₁ ih₂ => exact ih₁.trans ih₂

/-- Flattening maps that agree up to permutation on every element gives
permuted results. -/
lemma flatten_map_congr {α β : Type} {f g : α → List β} :
    ∀ (l : List α), (∀ a ∈ l, f a ~ g a) →
      (l.map f).flatten ~ (l.map g).flatten
  | [], _ => List.Perm.refl _
  | a :: l, h => by
      simp only [List.map_cons, List.flatten_cons]
      exact (h a (by simp)).append
        (flatten_map_congr l (fun b hb => h b (by simp [hb])))

/-- The key returned by `runItem` is always the netloc of the url. -/
lemma runItem_fst (behav : String → ItemBehavior) (url : String) :
    (runItem behav url).1 = netloc url := by
  cases hb : behav url with
  | completes conv t => cases conv <;> simp [runItem, hb, process_url]
  | timesOut => simp [runItem, hb]
  | crashes m => simp [runItem, hb]

/-- The url recorded in an outcome is always the processed work item. -/
lemma runItem_url (behav : String → ItemBehavior) (url : String) :
    (runItem behav url).2.url = url := by
  cases hb : behav url with
  | completes conv t => cases conv <;> simp [runItem, hb, process_url]
  | timesOut => simp [runItem, hb]
  | crashes m => simp [runItem, hb]

/-- Folding the loop body accumulates exactly one record per processed item. -/
lemma foldl_stepItem_vals (behav : String → ItemBehavior) :
    ∀ (l : List String) (acc : List (String × List Outcome)),
      vals (l.foldl (stepItem behav) acc) ~
        vals acc ++ l.map (fun u => (runItem behav u).2)
  | [], acc => by simp
  | u :: l, acc => by
      simp only [List.foldl_cons, List.map_cons]
      refine (foldl_stepItem_vals behav l (stepItem behav acc u)).trans ?_
      have h2 : vals (stepItem behav acc u) ~ vals acc ++ [(runItem behav u).2] :=
        vals_addOutcome acc _ _
      refine (h2.append_right (l.map (fun u => (runItem behav u).2))).trans ?_
      rw [List.append_assoc]
      exact List.Perm.refl _

lemma foldl_stepItem_nodup (behav : String → ItemBehavior) :
    ∀ (l : List String) (acc : List (String × List Outcome)),
      (acc.map Prod.fst).Nodup →
      ((l.foldl (stepItem behav) acc).map Prod.fst).Nodup
  | [], _, h => h
  | _ :: l, _, h =>
      foldl_stepItem_nodup behav l _ (nodup_keys_addOutcome h _ _)

/-- Building the report permutes the stored records but loses and adds
nothing (given distinct keys, which the accumulation maintains). -/
lemma reportVals_buildReport {acc : List (String × List Outcome)}
    (h : (acc.map Prod.fst).Nodup) :
    reportVals (buildReport acc) ~ vals acc := by
  unfold reportVals buildReport
  rw [List.map_map]
  have h1 : ∀ a ∈ List.insertionSort pyStrLe (acc.map Prod.fst),
      (DomainGroup.urls ∘ fun k =>
          ({ domain := k, urls := List.insertionSort outcomeLe (lookupList acc k) } :
            DomainGroup)) a ~ lookupList acc a :=
    fun a _ => List.perm_insertionSort _ _
  refine (flatten_map_congr _ h1).trans ?_
  refine (flatten_perm_of_perm ((List.perm_insertionSort pyStrLe _).map _)).trans ?_
  rw [flatten_lookup_keys acc h]

lemma goodAcc_addOutcome {acc : List (String × List Outcome)} (h : goodAcc acc)
    {k : String} {o : Outcome} (ho : get_primary_domain (netloc o.url) = k) :
    goodAcc (addOutcome acc k o) := by
  induction acc with
  | nil =>
      intro p hp
      simp only [addOutcome, List.mem_singleton] at hp
      subst hp
      exact ⟨by simp, by simpa using ho⟩
  | cons q rest ih =>
      obtain ⟨k', os⟩ := q
      rw [addOutcome_cons]
      rcases List.forall_mem_cons.mp h with ⟨hhead, htail⟩
      by_cases hk : k' = k
      · rw [if_pos hk]
        intro p hp
        rcases List.mem_cons.mp hp with hp | hp
        · subst hp
          refine ⟨by simp, ?_⟩
          intro o' ho'
          rcases List.mem_append.mp ho' with ho' | ho'
          · exact hhead.2 o' ho'
          · rw [List.mem_singleton] at ho'
            subst ho'
            exact hk ▸ ho
        · exact htail p hp
      · rw [if_neg hk]
        intro p hp
        rcases List.mem_cons.mp hp with hp | hp
        · subst hp; exact hhead
        · exact ih htail p hp

lemma goodAcc_foldl (behav : String → ItemBehavior) :
    ∀ (l : List String) (acc : List (String × List Outcome)),
      goodAcc acc → goodAcc (l.foldl (stepItem behav) acc)
  | [], _, h => h
  | u :: l, acc, h => by
      simp only [List.foldl_cons]
      refine goodAcc_foldl behav l _ (goodAcc_addOutcome h ?_)
      rw [runItem_url, runItem_fst]

/-- A key present in the dict looks up to its stored group. -/
lemma lookupList_mem {acc : List (String × List Outcome)} {k : String}
    (h : k ∈ acc.map Prod.fst) : (k, lookupList acc k) ∈ acc := by
  induction acc with
  | nil => simp at h
  | cons p rest ih =>
      obtain ⟨k', os⟩ := p
      rw [lookupList_cons]
      by_cases hk : k' = k
      · subst hk
        rw [if_pos rfl]
        exact List.mem_cons_self _ _
      · rw [if_neg hk]
        have h' : k ∈ k' :: rest.map Prod.fst := h
        have hm : k ∈ rest.map Prod.fst := by
          rcases List.mem_cons.mp h' with hc | hc
          · exact absurd hc.symm hk
          · exact hc
        exact List.mem_cons_of_mem _ (ih hm)

/-! ### Claims C5, C8, C9 -/

/-- C5: for every host string `h` that ends with the configured suffix
`"asimov.academy"`, `get_primary_domain h` returns that configured suffix;
for every other host `h`, `get_primary_domain h` returns `h` unchanged. -/
theorem C5_get_primary_domain_cases (h : String) :
    (endswith h "asimov.academy" = true → get_primary_domain h = "asimov.academy") ∧
    (endswith h "asimov.academy" = false → get_primary_domain h = h) := by
  constructor <;> intro hc <;> simp [get_primary_domain, hc]

/-- Witness for C5: a subdomain host collapses to the configured suffix, and
an unrelated host passes through unchanged. -/
theorem C5_get_primary_domain_cases_witness :
    get_primary_domain "docs.asimov.academy" = "asimov.academy" ∧
    get_primary_domain "example.com" = "example.com" :=
  ⟨(C5_get_primary_domain_cases "docs.asimov.academy").1 (by decide),
   (C5_get_primary_domain_cases "example.com").2 (by decide)⟩

/-- C8: `get_primary_domain` is idempotent: applying it twice to any host
gives the same result as applying it once. -/
theorem C8_get_primary_domain_idempotent (h : String) :
    get_primary_domain (get_primary_domain h) = get_primary_domain h := by
  by_cases hc : endswith h "asimov.academy" = true
  · have h1 : get_primary_domain h = "asimov.academy" := by
      simp [get_primary_domain, hc]
    rw [h1]; decide
  · have h1 : get_primary_domain h = h := by
      simp [get_primary_domain, hc]
    rw [h1]; exact h1

/-- C9: the filenames derived for the written artifacts — the first heading's
sanitized title, or the fallback `"index"`, plus the `.md`/`.json` extension —
contain only characters from the safe set (letters, digits, `-`, `_`, `.`):
the sanitizer replaces every character outside that set by `_`. -/
theorem C9_artifact_filenames_safe (md : String) :
    (md_filename md).data.all isSafeChar = true ∧
    (json_filename md).data.all isSafeChar = true := by
  have h1 : (get_page_title md).data.all isSafeChar = true :=
    get_page_title_go_safe (splitlines md)
  constructor
  · show ((get_page_title md) ++ ".md").data.all isSafeChar = true
    rw [String.data_append, List.all_append, h1]
    decide
  · show ((get_page_title md) ++ ".json").data.all isSafeChar = true
    rw [String.data_append, List.all_append, h1]
    decide

/-! ### Claim C1 (corrected) -/

/-- C1 fails as stated: the outcome recorded for a timed-out item (lines
166-172) carries the status string `"error"` — the very value recorded for an
ordinary conversion failure — not a status distinct from Error identifying a
timeout, as the claim (and the spec's Success/Error/Timeout enum) requires. -/
theorem C1_timeout_status_counterexample :
    (runItem (fun _ => ItemBehavior.timesOut) "https://slow.example").2.status
        = "error" ∧
    (runItem (fun _ => ItemBehavior.completes (Except.error "boom") 1)
        "https://slow.example").2.status = "error" :=
  ⟨rfl, rfl⟩

/-- C1 amended: for every work item whose isolated execution exceeds the
fixed deadline, the recorded Outcome has the generic status `"error"` (the
code has no distinct Timeout status), an absent (`none`) elapsed duration,
and the fixed message `"Timeout after 1 minute"` identifying the timeout,
recorded both as the error detail and as the human-readable time field. -/
theorem C1_timeout_outcome (behav : String → ItemBehavior) (url : String)
    (h : behav url = ItemBehavior.timesOut) :
    (runItem behav url).2 =
      { url := url, status := "error", processing_time := none,
        processing_time_formatted := "Timeout after 1 minute",
        error_message := some "Timeout after 1 minute" } := by
  simp [runItem, h]

/-- Witness for the amended C1 at the url of the spec's Scenario B. -/
theorem C1_timeout_outcome_witness :
    (runItem (fun _ => ItemBehavior.timesOut) "https://slow.example").2 =
      { url := "https://slow.example", status := "error", processing_time := none,
        processing_time_formatted := "Timeout after 1 minute",
        error_message := some "Timeout after 1 minute" } :=
  C1_timeout_outcome (fun _ => ItemBehavior.timesOut) "https://slow.example" rfl

/-! ### Claim C2 (code bug) -/

/-- C2 names a real bug: in the wall-clock model of lines 159-172, a task
that runs for 120 seconds was already answered with `TimeoutError` at the
60-second deadline, yet the per-item call returns only at 120 s, because
leaving the `with` block waits for the worker through `shutdown(wait=True)`
instead of terminating it; the worker is still busy at 61 s, after the
deadline; and for a task that never finishes the call never returns at all.
The claim's bounded wait and forced termination do not hold. -/
theorem C2_shutdown_wait_unbounded :
    futureResult (some 120) = FutureWait.timedOut ∧
    perItemReturnTime (some 120) = some 120 ∧
    ¬((120 : ℚ) ≤ deadline) ∧
    workerBusyAt (some 120) 61 = true ∧
    perItemReturnTime none = none := by
  refine ⟨?_, ?_, ?_, ?_, rfl⟩
  · rw [futureResult, if_neg (by norm_num [deadline])]
  · rw [perItemReturnTime, futureResult, if_neg (by norm_num [deadline])]
    rfl
  · norm_num [deadline]
  · rw [workerBusyAt]
    norm_num

/-! ### Claim C6 (corrected) -/

/-- C6 fails as stated: a conversion failure whose stringified detail is the
empty string (`str(e) == ""`, e.g. an exception constructed without a
message) is recorded with status `"error"` but an empty error detail — the
error field holds `some ""`, a present but empty string, refuting the claim
that the recorded error detail is always non-empty. -/
theorem C6_empty_error_detail_counterexample :
    (runItem (fun _ => ItemBehavior.completes (Except.error "") 1)
        "https://x.com/a").2.status = "error" ∧
    (runItem (fun _ => ItemBehavior.completes (Except.error "") 1)
        "https://x.com/a").2.error_message = some "" ∧
    ("" : String).length = 0 :=
  ⟨rfl, rfl, rfl⟩

/-- C6 amended: for every work item whose conversion or artifact writing
raises an error, the recorded Outcome has status `"error"` and its error
detail is present and equal to the stringified failure detail (which is
empty exactly when the failure's own message is empty); no exception
propagates out of the per-item boundary — `runItem` yields a record in
every case, including a failure of the future itself. -/
theorem C6_error_outcome (behav : String → ItemBehavior) (url m : String) (t : ℚ)
    (h : behav url = ItemBehavior.completes (Except.error m) t) :
    (runItem behav url).2.status = "error" ∧
    (runItem behav url).2.error_message = some m := by
  rw [runItem, h]
  exact ⟨rfl, rfl⟩

/-- Witness for the amended C6 at a concrete failing conversion. -/
theorem C6_error_outcome_witness :
    (runItem (fun _ => ItemBehavior.completes (Except.error "boom") 1)
        "https://x.com/a").2.status = "error" ∧
    (runItem (fun _ => ItemBehavior.completes (Except.error "boom") 1)
        "https://x.com/a").2.error_message = some "boom" :=
  C6_error_outcome (fun _ => ItemBehavior.completes (Except.error "boom") 1)
    "https://x.com/a" "boom" 1 rfl

/-! ### Claims C3, C4, C7, C10 -/

/-- C3: for every input list of work items and every behaviour of the
per-item execution — including items that error, crash or time out — the
grouped report contains exactly one Outcome per work item: the multiset of
urls across all groups is a permutation of the input list, so no item is
lost, none is duplicated, and a failing item never suppresses the others. -/
theorem C3_one_outcome_per_item (behav : String → ItemBehavior) (urls : List String) :
    ((runBatch behav urls).map DomainGroup.urls).flatten.map Outcome.url ~ urls := by
  have hn : ((runBatchAcc behav urls).map Prod.fst).Nodup :=
    foldl_stepItem_nodup behav (sortedUrls urls) [] (by simp)
  have h1 : reportVals (buildReport (runBatchAcc behav urls)) ~
      vals (runBatchAcc behav urls) := reportVals_buildReport hn
  have h2 : vals (runBatchAcc behav urls) ~
      (sortedUrls urls).map (fun u => (runItem behav u).2) := by
    have h := foldl_stepItem_vals behav (sortedUrls urls) []
    simpa [vals] using h
  have h3 : ((sortedUrls urls).map (fun u => (runItem behav u).2)).map Outcome.url
      = sortedUrls urls := by
    rw [List.map_map]
    have h4 : ∀ u ∈ sortedUrls urls,
        (Outcome.url ∘ fun u => (runItem behav u).2) u = u :=
      fun u _ => runItem_url behav u
    rw [List.map_congr_left h4, List.map_id']
  show (reportVals (buildReport (runBatchAcc behav urls))).map Outcome.url ~ urls
  refine ((h1.trans h2).map Outcome.url).trans ?_
  rw [h3]
  exact List.perm_insertionSort urlKeyLe urls

/-- C4: in the final report, the sequence of group keys is sorted ascending
(Python string order), and within every group the outcomes are sorted
ascending by their url field. -/
theorem C4_report_sorted (behav : String → ItemBehavior) (urls : List String) :
    ((runBatch behav urls).map DomainGroup.domain).Sorted pyStrLe ∧
    ∀ g ∈ runBatch behav urls, g.urls.Sorted outcomeLe := by
  constructor
  · show (List.map DomainGroup.domain (buildReport (runBatchAcc behav urls))).Sorted pyStrLe
    unfold buildReport
    rw [List.map_map]
    have hcomp : (DomainGroup.domain ∘ fun k =>
        ({ domain := k,
           urls := List.insertionSort outcomeLe (lookupList (runBatchAcc behav urls) k) } :
          DomainGroup)) = fun k => k := rfl
    rw [hcomp, List.map_id']
    exact List.sorted_insertionSort pyStrLe _
  · intro g hg
    rcases List.mem_map.mp hg with ⟨k, _, rfl⟩
    exact List.sorted_insertionSort outcomeLe _

/-- Witness for C4 at a concrete one-item batch. -/
theorem C4_report_sorted_witness :
    ((runBatch (fun _ => ItemBehavior.timesOut) ["https://a.com/x"]).map
        DomainGroup.domain).Sorted pyStrLe ∧
    ({ domain := "a.com",
       urls := [{ url := "https://a.com/x", status := "error",
                  processing_time := none,
                  processing_time_formatted := "Timeout after 1 minute",
                  error_message := some "Timeout after 1 minute" }] } :
        DomainGroup).urls.Sorted outcomeLe :=
  ⟨(C4_report_sorted (fun _ => ItemBehavior.timesOut) ["https://a.com/x"]).1,
   (C4_report_sorted (fun _ => ItemBehavior.timesOut) ["https://a.com/x"]).2
     _ (by decide)⟩

/-- C7: before any item is processed the work list is sorted ascending by
the pair (primary domain of the url's netloc, raw url) — `sortedUrls` is a
permutation of the input that is sorted under `urlKeyLe` — and the batch
accumulation folds the per-item step over exactly that sorted list, i.e.
items are processed strictly in that order. -/
theorem C7_presorted_processing_order (behav : String → ItemBehavior)
    (urls : List String) :
    (sortedUrls urls).Sorted urlKeyLe ∧ sortedUrls urls ~ urls ∧
    runBatchAcc behav urls = (sortedUrls urls).foldl (stepItem behav) [] :=
  ⟨List.sorted_insertionSort urlKeyLe urls,
   List.perm_insertionSort urlKeyLe urls, rfl⟩

/-- C10: in the final report every group carries a non-empty list of
outcomes, and every outcome in a group has
`get_primary_domain (netloc outcome.url)` equal to the group's key — the
accumulation key and the members' derived domains never disagree. -/
theorem C10_group_key_invariant (behav : String → ItemBehavior)
    (urls : List String) :
    ∀ g ∈ runBatch behav urls, g.urls ≠ [] ∧
      ∀ o ∈ g.urls, get_primary_domain (netloc o.url) = g.domain := by
  intro g hg
  have hgood : goodAcc (runBatchAcc behav urls) :=
    goodAcc_foldl behav (sortedUrls urls) [] (by intro p hp; simp at hp)
  rcases List.mem_map.mp hg with ⟨k, hk, rfl⟩
  have hk' : k ∈ (runBatchAcc behav urls).map Prod.fst :=
    (List.mem_insertionSort pyStrLe).mp hk
  have hp := hgood _ (lookupList_mem hk')
  constructor
  · intro hnil
    have hnil' : List.insertionSort outcomeLe
        (lookupList (runBatchAcc behav urls) k) = [] := hnil
    have hperm := List.perm_insertionSort outcomeLe
      (lookupList (runBatchAcc behav urls) k)
    rw [hnil'] at hperm
    exact hp.1 hperm.symm.eq_nil
  · intro o ho
    exact hp.2 o ((List.mem_insertionSort outcomeLe).mp ho)

/-- Witness for C10: applying the invariant to a concrete one-item batch
shows the group key "a.com" is the primary domain of the member's url. -/
theorem C10_group_key_invariant_witness :
    get_primary_domain (netloc "https://a.com/x") = "a.com" := by
  have h := C10_group_key_invariant (fun _ => ItemBehavior.timesOut)
    ["https://a.com/x"]
    { domain := "a.com",
      urls := [{ url := "https://a.com/x", status := "error",
                 processing_time := none,
                 processing_time_formatted := "Timeout after 1 minute",
                 error_message := some "Timeout after 1 minute" }] } (by decide)
  exact h.2
    { url := "https://a.com/x", status := "error", processing_time := none,
      processing_time_formatted := "Timeout after 1 minute",
      error_message := some "Timeout after 1 minute" } (by simp)

example : netloc "https://docs.asimov.academy/page/x" = "docs.asimov.academy" := by decide
example : netloc "https://other.com/z?q=1" = "other.com" := by decide
example : netloc "no-scheme-path" = "" := by decide
example : get_primary_domain "docs.asimov.academy" = "asimov.academy" := by decide
example : get_primary_domain "other.com" = "other.com" := by decide
example : get_page_title "intro\n# My Title! \ntail" = "My_Title_" := by decide
example : get_page_title "no heading here" = "index" := by decide

example :
    sortedUrls ["https://b.com/y", "https://a.com/x"] =
      ["https://a.com/x", "https://b.com/y"] := by decide

example :
    runBatch (fun _ => ItemBehavior.timesOut) ["https://a.com/x"] =
      [{ domain := "a.com",
         urls := [{ url := "https://a.com/x", status := "error",
                    processing_time := none,
                    processing_time_formatted := "Timeout after 1 minute",
                    error_message := some "Timeout after 1 minute" }] }] := by decide

end HtmlConverter
